import Mathlib

/-!
Verification development for the idadwarf DWARF-to-IDA translation core.

The definitions below are shallow embeddings of the C++ source:
the offset cache operations (DieHolder::in_cache, cache_useless, cache_type
in src/idadwarf.cpp), the traversal dispatch (visit_die, try_visit_die),
the second pass (do_second_pass), the structural comparators
(EnumCmp::equal, StrucCmp::equal in src/type_utils.cpp), the
duplicate-name retry loops (set_simple_die_type, add_dup_enum,
add_dup_struc), the array name synthesis (process_array) and the frame
variable visitor (visit_frame_var in src/frame_retrieval.cpp).
-/

/-! ### Offset cache model

The cache is a netnode keyed by DIE offset holding die_cache records
(src/idadwarf.cpp lines 69 to 78 and 447 to 509).  We model the netnode
as an association list from offsets to records; supset replaces the
record stored under a key or appends a fresh one.
-/

/-- Classification of a cached DIE (enum die_type in src/idadwarf.cpp). -/
inductive die_type where
  | DIE_USELESS : die_type
  | DIE_TYPE : die_type
  | DIE_VAR : die_type
deriving DecidableEq, Repr

/-- Cached record for one DIE offset (struct die_cache in src/idadwarf.cpp). -/
structure die_cache where
  type : die_type
  ordinal : Nat
  second_pass : Bool
deriving DecidableEq, Repr

/-- The offset cache: netnode contents as an association list keyed by DIE offset. -/
abbrev Cache := List (Nat × die_cache)

/-- Lookup of the record stored under an offset (netnode supval). -/
def supval : Cache → Nat → Option die_cache
  | [], _ => none
  | (k, v) :: rest, off => if k = off then some v else supval rest off

/-- Store a record under an offset, replacing any existing one (netnode supset). -/
def supset : Cache → Nat → die_cache → Cache
  | [], off, v => [(off, v)]
  | (k, w) :: rest, off, v =>
    if k = off then (k, v) :: rest else (k, w) :: supset rest off v

/-- DieHolder::in_cache: an entry exists for the offset. -/
def in_cache (c : Cache) (off : Nat) : Bool :=
  (supval c off).isSome

/-- DieHolder::cache_useless: write a Useless record only when no entry exists. -/
def cache_useless (c : Cache) (off : Nat) : Cache :=
  if in_cache c off then c
  else supset c off ⟨die_type.DIE_USELESS, 0, false⟩

/-- DieHolder::cache_type: write a Type record unless a non-useless entry exists. -/
def cache_type (c : Cache) (off : Nat) (ordinal : Nat) (second_pass : Bool) : Cache :=
  match supval c off with
  | some e =>
    if e.type ≠ die_type.DIE_USELESS then c
    else supset c off ⟨die_type.DIE_TYPE, ordinal, second_pass⟩
  | none => supset c off ⟨die_type.DIE_TYPE, ordinal, second_pass⟩

/-- One call against the offset cache, for reasoning about call sequences. -/
inductive CacheOp where
  | useless (off : Nat) : CacheOp
  | typ (off : Nat) (ordinal : Nat) (second_pass : Bool) : CacheOp
deriving DecidableEq, Repr

/-- Apply one cache call. -/
def applyOp (c : Cache) : CacheOp → Cache
  | CacheOp.useless off => cache_useless c off
  | CacheOp.typ off ordinal second_pass => cache_type c off ordinal second_pass

/-- Apply a sequence of cache calls left to right. -/
def applyOps (c : Cache) (ops : List CacheOp) : Cache :=
  ops.foldl applyOp c

/-! ### Traversal dispatch model

visit_die (src/idadwarf.cpp lines 1525 to 1560) checks the cache first,
then dispatches by tag to the handler.  try_visit_die (lines 1562 to
1572, likewise the TRY_VISIT_DIE wrapper in src/die_utils.hpp) wraps the
dispatch in a single try/catch that logs a message; the catch body does
not touch the cache.  The tag specific handler is a parameter: it
transforms the cache and reports whether it threw a DieException, with
any cache writes made before the throw kept (the netnode is imperative).
-/

/-- DIE tags distinguished by the dispatch switch in visit_die. -/
inductive DieTag where
  | enumeration_type | base_type | unspecified_type
  | volatile_type | const_type | pointer_type
  | typedef_type | array_type | structure_type
  | other_tag
deriving DecidableEq, Repr

/-- A DIE together with the effect of its tag specific handler on the
offset cache.  The Bool result reports whether the handler threw; the
returned cache keeps any writes made before the throw. -/
structure DieModel where
  tag : DieTag
  handler : Cache → Cache × Bool

/-- Tags that visit_die dispatches to a handler (all cases of the switch
except the default branch). -/
def tag_handled : DieTag → Bool
  | DieTag.other_tag => false
  | _ => true

/-- visit_die: skip when cached, otherwise dispatch by tag.
Result: (cache, handler invoked, handler threw). -/
def visit_die (d : DieModel) (off : Nat) (c : Cache) : Cache × Bool × Bool :=
  if in_cache c off then (c, false, false)
  else if tag_handled d.tag then
    let r := d.handler c
    (r.1, true, r.2)
  else (c, false, false)

/-- try_visit_die: one catch per DIE; a thrown DieException is logged and
swallowed, and the cache is left exactly as visit_die left it.
Result: (cache, handler invoked, failure logged). -/
def try_visit_die (d : DieModel) (off : Nat) (c : Cache) : Cache × Bool × Bool :=
  let r := visit_die d off c
  (r.1, r.2.1, r.2.2)

/-- process_base_type on a DIE whose byte size attribute is unreadable:
get_bytesize throws before any cache write (src/idadwarf.cpp line 1029),
so the handler raises without touching the cache. -/
def base_type_missing_size : DieModel :=
  ⟨DieTag.base_type, fun c => (c, true)⟩

/-- process_unspecified (src/idadwarf.cpp lines 1176 to 1181): registers
the void type in the type database and returns without writing any
offset cache entry and without throwing. -/
def unspecified_die : DieModel :=
  ⟨DieTag.unspecified_type, fun c => (c, false)⟩

/-! ### Second pass model

do_second_pass (src/idadwarf.cpp lines 1574 to 1593) iterates the cached
entries; for every Type entry with the second_pass flag whose DIE is a
structure it emits a TODO message.  It performs no cache write and no
member resolution.
-/

/-- Message text emitted by do_second_pass for a pending structure. -/
def second_pass_todo_msg : String :=
  "TODO: struct needs a second pass"

/-- Log output of do_second_pass for one cached entry. -/
def second_pass_entry (tags : Nat → DieTag) (p : Nat × die_cache) : List String :=
  if p.2.type = die_type.DIE_TYPE ∧ p.2.second_pass = true ∧
     tags p.1 = DieTag.structure_type then
    [second_pass_todo_msg]
  else []

/-- do_second_pass: walk the cache in order, log a TODO for each pending
structure entry, modify nothing.  Result: (cache, log messages). -/
def do_second_pass (tags : Nat → DieTag) (c : Cache) : Cache × List String :=
  (c, c.flatMap (second_pass_entry tags))

/-- Tag assignment used in concrete runs: every offset is a structure DIE. -/
def all_structure_tags : Nat → DieTag := fun _ => DieTag.structure_type

/-! ### Structural comparators

EnumCmp (src/type_utils.cpp lines 68 to 130, identical algorithm in
src/idadwarf.cpp lines 801 to 872) compares an existing enum against an
enumeration DIE: a working map of constant names to values is pulled
from the existing enum; each enumerator child is looked up and erased on
an exact (name, value) match, the scan stops at the first child that
does not match, and equality is the emptiness of the working map.
StrucCmp (src/type_utils.cpp lines 174 to 243) does the same for
structs and unions except that non-matching members do not stop the
scan, and union member offsets are forced to zero on both sides.
-/

/-- Working map of an EnumCmp: constant name to value (std::map, unique keys). -/
abbrev MapConsts := List (String × Nat)

/-- EnumCmp::find: erase the entry for the name when it holds exactly the
given value; report whether it was erased and return the new map. -/
def consts_find (m : MapConsts) (name : String) (value : Nat) : Bool × MapConsts :=
  match m with
  | [] => (false, [])
  | (k, v) :: rest =>
    if k = name then
      if v = value then (true, rest) else (false, (k, v) :: rest)
    else
      let r := consts_find rest name value
      (r.1, (k, v) :: r.2)

/-- Scan loop of EnumCmp::equal: consume children while they match,
stop at the first child that does not; return the remaining map. -/
def EnumCmp.equal_go (m : MapConsts) : List (String × Nat) → MapConsts
  | [] => m
  | (n, v) :: rest =>
    let r := consts_find m n v
    if r.1 then EnumCmp.equal_go r.2 rest else m

/-- EnumCmp::equal: false when no existing enum was found, otherwise the
working map must be empty after the scan loop. -/
def EnumCmp.equal (enum_found : Bool) (m : MapConsts) (children : List (String × Nat)) : Bool :=
  if enum_found then (EnumCmp.equal_go m children).isEmpty else false

/-- Modelled from the spec: the claim reads equality as the DIE member
set exactly draining the working set, every child matching and the map
ending empty.  Defined for comparison with EnumCmp::equal. -/
def drains_exactly_go (m : MapConsts) : List (String × Nat) → Option MapConsts
  | [] => some m
  | (n, v) :: rest =>
    let r := consts_find m n v
    if r.1 then drains_exactly_go r.2 rest else none

/-- Modelled from the spec: every DIE member matches and erases an entry
and no entry is left over. -/
def drains_exactly (m : MapConsts) (children : List (String × Nat)) : Bool :=
  match drains_exactly_go m children with
  | some m2 => m2.isEmpty
  | none => false

/-- Working map of a StrucCmp: member name to byte offset. -/
abbrev MapMembers := List (String × Nat)

/-- StrucCmp::try_erase: erase the entry for the name when it holds
exactly the given offset; keep the map unchanged otherwise. -/
def try_erase (m : MapMembers) (name : String) (off : Nat) : MapMembers :=
  match m with
  | [] => []
  | (k, v) :: rest =>
    if k = name then
      if v = off then rest else (k, v) :: rest
    else (k, v) :: try_erase rest name off

/-- Member offset used by StrucCmp::equal: forced to zero for unions. -/
def struc_adj (is_union : Bool) (c : String × Nat) : Nat :=
  if is_union then 0 else c.2

/-- Member loop of StrucCmp::equal: every child tries to erase its
(name, adjusted offset) pair; a child that does not match is skipped. -/
def struc_scan (is_union : Bool) (m : MapMembers) : List (String × Nat) → MapMembers
  | [] => m
  | c :: rest => struc_scan is_union (try_erase m c.1 (struc_adj is_union c)) rest

/-- StrucCmp::equal: requires a found entity with at least one member
and matching union-ness; then equality is the emptiness of the working
map after the member loop. -/
def StrucCmp.equal (struc_found : Bool) (is_union_existing : Bool)
    (m : MapMembers) (is_union_die : Bool) (children : List (String × Nat)) : Bool :=
  if ¬m.isEmpty ∧ is_union_existing = is_union_die ∧ struc_found then
    (struc_scan is_union_existing m children).isEmpty
  else false

/-- Unique keys of a working map (std::map invariant). -/
def keysNodup (m : List (String × Nat)) : Prop :=
  (m.map Prod.fst).Nodup

/-! ### Duplicate-name retry loops

set_simple_die_type (src/idadwarf.cpp lines 909 to 939) and
add_dup_enum / add_dup_struc (src/type_utils.cpp lines 246 to 309)
retry a failed registration by appending an underscore to the candidate
name, first testing whether an existing structurally equal entity
already sits under the suffixed name.  The host database is modelled
from the spec collision policy: allocation under a name fails exactly
when the name is already taken, and the existing-entity test is an
arbitrary predicate on names.
-/

/-- Longest name length among the taken names. -/
def maxNameLen (taken : List String) : Nat :=
  taken.foldr (fun s acc => max s.length acc) 0

/-- Retry loop of add_dup_enum and add_dup_struc: append an underscore,
reuse an existing structurally equal entity under the new name if the
comparator accepts it, otherwise retry the allocation, which succeeds
exactly when the new name is free.  Fuel-indexed. -/
def add_dup_go (taken : List String) (equalAt : String → Bool) (cur : String) :
    Nat → Option String
  | 0 => none
  | fuel + 1 =>
    let nn := cur ++ "_"
    if equalAt nn then some nn
    else if nn ∈ taken then add_dup_go taken equalAt nn fuel
    else some nn

/-- add_dup_enum: try the natural name, then run the underscore retry loop. -/
def add_dup_enum (taken : List String) (equalAt : String → Bool) (name : String)
    (fuel : Nat) : Option String :=
  if name ∈ taken then add_dup_go taken equalAt name fuel else some name

/-- add_dup_struc: identical retry structure to add_dup_enum. -/
def add_dup_struc (taken : List String) (equalAt : String → Bool) (name : String)
    (fuel : Nat) : Option String :=
  if name ∈ taken then add_dup_go taken equalAt name fuel else some name

/-- Retry loop of set_simple_die_type: set_numbered_type succeeds exactly
when the candidate name is free; on failure an underscore is appended
and get_simple_type tests for an existing equal type under the new name
before the next allocation attempt.  Fuel-indexed. -/
def sdt_go (taken : List String) (equalAt : String → Bool) (cur : String) :
    Nat → Option String
  | 0 => none
  | fuel + 1 =>
    if cur ∈ taken then
      let nn := cur ++ "_"
      if equalAt nn then some nn
      else sdt_go taken equalAt nn fuel
    else some cur

/-- set_simple_die_type: reuse an existing equal type under the natural
name, otherwise allocate through the underscore retry loop. -/
def set_simple_die_type (taken : List String) (equalAt : String → Bool)
    (name : String) (fuel : Nat) : Option String :=
  if equalAt name then some name else sdt_go taken equalAt name fuel

/-! ### Array name synthesis

process_array (src/idadwarf.cpp lines 1337 to 1411) reads the upper
bound from the first subrange child; a missing subrange child, a missing
bound attribute or an unreadable bound leaves the size at zero
(the DieException from get_attr_small_val is caught and size is reset).
The registered name is the element type name followed by the bracketed
size, brackets left empty when the size is not positive.
-/

/-- Upper bound information of the first subrange child: none when there
is no subrange child, some none when the bound attribute is absent or
unreadable, some (some v) when the bound v was read. -/
abbrev SubrangeBound := Option (Option Int)

/-- Size computed by process_array from the subrange upper bound. -/
def array_size (b : SubrangeBound) : Int :=
  match b with
  | none => 0
  | some none => 0
  | some (some v) => v

/-- Name synthesized by process_array for the array type. -/
def process_array_name (type_name : String) (b : SubrangeBound) : String :=
  let size := array_size b
  type_name ++ "[" ++ (if size > 0 then toString size else "") ++ "]"

/-! ### Frame variable visitor

visit_frame_var (src/frame_retrieval.cpp lines 17 to 179) evaluates the
single supported location of a parameter or local variable.  Register
atoms map through a fixed table and yield a register variable only when
the description came from a location list; DW_OP_breg5 yields the
operand as the stack offset; DW_OP_fbreg combines the operand with a
frame base area, the first area when the description is a plain
location block, the first area containing the description address range
when it came from a location list.  Everything else falls through with
no registration.
-/

/-- DWARF location atom codes used by the visitor. -/
def DW_OP_reg0 : Nat := 0x50
def DW_OP_reg1 : Nat := 0x51
def DW_OP_reg2 : Nat := 0x52
def DW_OP_reg3 : Nat := 0x53
def DW_OP_reg4 : Nat := 0x54
def DW_OP_reg5 : Nat := 0x55
def DW_OP_reg6 : Nat := 0x56
def DW_OP_reg7 : Nat := 0x57
def DW_OP_reg8 : Nat := 0x58
def DW_OP_breg5 : Nat := 0x75
def DW_OP_fbreg : Nat := 0x91
def DW_OP_addr : Nat := 0x03

/-- One location operation (Dwarf_Loc): atom code and operand. -/
structure Loc where
  atom : Nat
  number : Int
deriving DecidableEq, Repr

/-- One location description (Dwarf_Locdesc): address range, whether it
came from a location list, and its operations (ld_cents = ops.length). -/
structure Locdesc where
  lopc : Nat
  hipc : Nat
  from_loclist : Bool
  ops : List Loc
deriving DecidableEq, Repr

/-- Frame base area (struct OffsetArea in src/die_utils.hpp): address
range, frame relative offset, frame pointer flag. -/
structure OffsetArea where
  startEA : Nat
  endEA : Nat
  offset : Int
  use_fp : Bool
deriving DecidableEq, Repr

/-- area_t::contains on the variable description address range. -/
def OffsetArea.contains_range (a : OffsetArea) (lo hi : Nat) : Bool :=
  a.startEA ≤ lo ∧ hi ≤ a.endEA

/-- Modelled from the spec: the frame base location of the subprogram,
decoded by DieHolder::get_frame_pointer_offsets, whose definition is not
under src.  Per section 4.6 a simple (non-list) frame base expression
yields a single global base and a location list yields one OffsetArea
per address sub-range. -/
inductive FrameBase where
  | simple (base : Int) : FrameBase
  | loclist (areas : List OffsetArea) : FrameBase

/-- Largest representable address (ea_t is 32 bits wide here). -/
def MAX_EA : Nat := 0xffffffff

/-- Modelled from the spec: OffsetArea list produced from the frame base
description; a simple expression covers every address with the global
base as its offset. -/
def mkOffsetAreas : FrameBase → List OffsetArea
  | FrameBase.simple base => [⟨0, MAX_EA, base, true⟩]
  | FrameBase.loclist areas => areas

/-- Cached type information available for the variable when registering:
noType when no type attribute resolves through the cache, sizeFail when
the host size query fails, sized when a size was obtained (the flag
tells whether the struct/union/enum attach path is used). -/
inductive TypeStatus where
  | noType : TypeStatus
  | sizeFail : TypeStatus
  | sized (struct_or_enum : Bool) : TypeStatus
deriving DecidableEq, Repr

/-- Effect of one visit_frame_var call on the function frame state. -/
inductive VarOutcome where
  | nothing : VarOutcome
  | regvar (lo hi : Nat) (reg : String) (var : String) : VarOutcome
  | stkvar (var : String) (offset : Int) (typed : Bool) : VarOutcome
deriving DecidableEq, Repr

/-- The stack offset registered by an outcome, if any. -/
def VarOutcome.stkOffset : VarOutcome → Option Int
  | VarOutcome.stkvar _ off _ => some off
  | _ => none

/-- Whether the outcome created a stack frame member. -/
def VarOutcome.isStk : VarOutcome → Bool
  | VarOutcome.stkvar _ _ _ => true
  | _ => false

/-- Register name table of the switch in visit_frame_var
(src/frame_retrieval.cpp lines 30 to 62). -/
def regNameOf (atom : Nat) : Option String :=
  if atom = DW_OP_reg0 then some "eax"
  else if atom = DW_OP_reg1 then some "ecx"
  else if atom = DW_OP_reg2 then some "edx"
  else if atom = DW_OP_reg3 then some "ebx"
  else if atom = DW_OP_reg4 then some "esp"
  else if atom = DW_OP_reg5 then some "ebp"
  else if atom = DW_OP_reg6 then some "esi"
  else if atom = DW_OP_reg7 then some "edi"
  else if atom = DW_OP_reg8 then some "eip"
  else none

/-- Stack offset computed by the breg5/fbreg branch of visit_frame_var,
none when no supported case applies (the found flag stays false). -/
def frame_offset_of (loc : Loc) (from_loclist : Bool) (lopc hipc : Nat)
    (offset_areas : List OffsetArea) : Option Int :=
  if loc.atom = DW_OP_breg5 then some loc.number
  else if loc.atom = DW_OP_fbreg ∧ ¬offset_areas.isEmpty then
    if ¬from_loclist then
      match offset_areas with
      | [] => none
      | a :: _ => some (a.offset + loc.number)
    else
      match offset_areas.find? (fun a => a.contains_range lopc hipc) with
      | some a => some (a.offset + loc.number)
      | none => none
  else none

/-- Registration performed once a stack offset is found, along with the
log it emits: a sized type registers a typed stack variable, a failed
size query logs a message and registers the variable untyped, no type
information registers it untyped silently. -/
def register_stkvar (var_name : String) (off : Int) (tstat : TypeStatus) :
    VarOutcome × List String :=
  match tstat with
  | TypeStatus.noType => (VarOutcome.stkvar var_name off false, [])
  | TypeStatus.sizeFail =>
    (VarOutcome.stkvar var_name off false, ["cannot get size of stack frame var"])
  | TypeStatus.sized _ => (VarOutcome.stkvar var_name off true, [])

/-- visit_frame_var: frame effect and emitted log of one variable DIE.
Inputs: the DIE name, its single location description, the member names
of the function frame (none when get_frame fails), the compilation unit
low address, the frame base areas and the cached type information. -/
def visit_frame_var (var_name : Option String) (locdesc : Locdesc)
    (frame : Option (List String)) (cu_low_pc : Nat)
    (offset_areas : List OffsetArea) (tstat : TypeStatus) :
    VarOutcome × List String :=
  match var_name with
  | none => (VarOutcome.nothing, [])
  | some name =>
    match locdesc.ops with
    | [loc] =>
      match regNameOf loc.atom with
      | some reg =>
        if locdesc.from_loclist then
          (VarOutcome.regvar (locdesc.lopc + cu_low_pc) (locdesc.hipc + cu_low_pc)
            reg name, [])
        else (VarOutcome.nothing, [])
      | none =>
        match frame with
        | none => (VarOutcome.nothing, [])
        | some members =>
          if name ∈ members then (VarOutcome.nothing, [])
          else
            match frame_offset_of loc locdesc.from_loclist locdesc.lopc
                locdesc.hipc offset_areas with
            | none => (VarOutcome.nothing, [])
            | some off => register_stkvar name off tstat
    | _ => (VarOutcome.nothing, [])

/-! ### Cache lemmas shared by the cache and dispatch theorems -/

theorem supval_supset_self (c : Cache) (off : Nat) (v : die_cache) :
    supval (supset c off v) off = some v := by
  induction c with
  | nil => simp [supset, supval]
  | cons p rest ih =>
    by_cases h : p.1 = off
    · simp [supset, supval, h]
    · simp [supset, supval, h, ih]

theorem supval_supset_ne (c : Cache) (off off2 : Nat) (v : die_cache)
    (h : off2 ≠ off) : supval (supset c off2 v) off = supval c off := by
  induction c with
  | nil => simp [supset, supval, h]
  | cons p rest ih =>
    by_cases hp : p.1 = off2
    · simp [supset, supval, hp, h]
    · simp [supset, supval, hp, ih]

theorem supval_applyOp_nonuseless (c : Cache) (off : Nat) (e : die_cache)
    (he : supval c off = some e) (hne : e.type ≠ die_type.DIE_USELESS)
    (op : CacheOp) : supval (applyOp c op) off = some e := by
  cases op with
  | useless off2 =>
    by_cases h2 : off2 = off
    · subst h2
      have hin : in_cache c off2 = true := by simp [in_cache, he]
      simp [applyOp, cache_useless, hin, he]
    · simp only [applyOp, cache_useless]
      by_cases hin : in_cache c off2 = true
      · simp [hin, he]
      · simp only [hin]
        simp [supval_supset_ne c off off2 _ h2, he]
  | typ off2 ordinal sp =>
    by_cases h2 : off2 = off
    · subst h2
      simp [applyOp, cache_type, he, hne]
    · simp only [applyOp, cache_type]
      cases h3 : supval c off2 with
      | none => simp [supval_supset_ne c off off2 _ h2, he]
      | some e2 =>
        by_cases h4 : e2.type ≠ die_type.DIE_USELESS
        · simp [h4, he]
        · simp [h4, supval_supset_ne c off off2 _ h2, he]

theorem supval_applyOps_nonuseless (c : Cache) (off : Nat) (e : die_cache)
    (he : supval c off = some e) (hne : e.type ≠ die_type.DIE_USELESS)
    (ops : List CacheOp) : supval (applyOps c ops) off = some e := by
  induction ops generalizing c with
  | nil => exact he
  | cons op rest ih =>
    have step := supval_applyOp_nonuseless c off e he hne op
    simpa [applyOps] using ih (applyOp c op) step

/-! ### Claim theorems: offset cache and dispatch -/

/-- C4: mark_useless is a no-op whenever any entry exists for the
offset; mark_type overwrites an existing Useless entry but never a
non-useless one; consequently the first non-useless classification of
an offset survives any later sequence of cache calls. -/
theorem cache_first_win (c : Cache) (off : Nat) :
    (in_cache c off = true → cache_useless c off = c) ∧
    (∀ e, supval c off = some e → e.type = die_type.DIE_USELESS →
      ∀ ordinal sp, cache_type c off ordinal sp =
        supset c off ⟨die_type.DIE_TYPE, ordinal, sp⟩) ∧
    (∀ e, supval c off = some e → e.type ≠ die_type.DIE_USELESS →
      (∀ ordinal sp, cache_type c off ordinal sp = c) ∧
      (∀ ops, supval (applyOps c ops) off = some e)) := by
  refine ⟨?_, ?_, ?_⟩
  · intro h
    simp [cache_useless, h]
  · intro e he hty ordinal sp
    simp [cache_type, he, hty]
  · intro e he hne
    exact ⟨fun ordinal sp => by simp [cache_type, he, hne],
           fun ops => supval_applyOps_nonuseless c off e he hne ops⟩

/-- Witness for C4 at a concrete cache: an offset classified Type keeps
its record across a later mark_useless and mark_type call. -/
theorem cache_first_win_witness :
    cache_useless [(0, ⟨die_type.DIE_TYPE, 7, false⟩)] 0 =
      [(0, ⟨die_type.DIE_TYPE, 7, false⟩)] ∧
    supval (applyOps [(0, ⟨die_type.DIE_TYPE, 7, false⟩)]
      [CacheOp.useless 0, CacheOp.typ 0 9 true]) 0 =
      some ⟨die_type.DIE_TYPE, 7, false⟩ := by
  have h := cache_first_win [(0, ⟨die_type.DIE_TYPE, 7, false⟩)] 0
  exact ⟨h.1 (by decide),
         (h.2.2 ⟨die_type.DIE_TYPE, 7, false⟩ (by decide) (by decide)).2
           [CacheOp.useless 0, CacheOp.typ 0 9 true]⟩

/-- C1: the second pass modifies nothing.  In particular, on a cache
whose one entry is a structure classified Type with the pending flag,
do_second_pass only emits the TODO message and the entry is still
pending afterwards: no member resolution is re-attempted. -/
theorem second_pass_logs_only :
    (∀ (tags : Nat → DieTag) (c : Cache), (do_second_pass tags c).1 = c) ∧
    do_second_pass all_structure_tags [(1, ⟨die_type.DIE_TYPE, 5, true⟩)] =
      ([(1, ⟨die_type.DIE_TYPE, 5, true⟩)], [second_pass_todo_msg]) ∧
    supval (do_second_pass all_structure_tags
      [(1, ⟨die_type.DIE_TYPE, 5, true⟩)]).1 1 = some ⟨die_type.DIE_TYPE, 5, true⟩ := by
  refine ⟨fun tags c => rfl, by decide, by decide⟩

/-- Counterexample for C2: a base type DIE whose handler throws before
caching anything (missing byte size) is not classified useless by the
catch at the traversal boundary, and a second dispatch re-invokes its
handler. -/
theorem failed_die_not_marked_useless :
    try_visit_die base_type_missing_size 0 [] = ([], true, true) ∧
    in_cache (try_visit_die base_type_missing_size 0 []).1 0 = false ∧
    (try_visit_die base_type_missing_size 0
      ((try_visit_die base_type_missing_size 0 []).1)).2.1 = true :=
  ⟨rfl, rfl, rfl⟩

/-- C2 amended: a handler failure on an uncached DIE is caught at the
traversal boundary and logged, and the cache is left exactly as the
handler left it; the catch itself writes no classification. -/
theorem try_visit_die_catches_and_logs (d : DieModel) (off : Nat) (c : Cache)
    (hnc : in_cache c off = false) (hh : tag_handled d.tag = true)
    (hthrew : (d.handler c).2 = true) :
    try_visit_die d off c = ((d.handler c).1, true, true) := by
  simp [try_visit_die, visit_die, hnc, hh, hthrew]

/-- Witness for the amended C2 at a concrete throwing handler. -/
theorem try_visit_die_catches_and_logs_witness :
    try_visit_die base_type_missing_size 5 [] = ([], true, true) :=
  try_visit_die_catches_and_logs base_type_missing_size 5 []
    (by decide) (by decide) (by decide)

/-- Counterexample for C3: the unspecified-type handler returns without
writing a cache entry, so dispatching the same DIE twice invokes the
handler both times. -/
theorem uncached_handler_reinvoked :
    (visit_die unspecified_die 0 []).2.1 = true ∧
    (visit_die unspecified_die 0 ((visit_die unspecified_die 0 []).1)).2.1 = true :=
  ⟨rfl, rfl⟩

/-- Dispatch on a cached offset is a complete no-op. -/
theorem visit_die_cached (d : DieModel) (off : Nat) (c : Cache)
    (h : in_cache c off = true) : visit_die d off c = (c, false, false) := by
  simp [visit_die, h]

/-- C3 amended: dispatching an offset that already has a cache entry
leaves the cache unchanged and does not invoke the handler; hence a
second dispatch after a first one never re-invokes the handler provided
the first dispatch left a cache entry for the offset. -/
theorem visit_die_cached_skip (d : DieModel) (off : Nat) (c : Cache) :
    (in_cache c off = true → visit_die d off c = (c, false, false)) ∧
    (in_cache (visit_die d off c).1 off = true →
      visit_die d off ((visit_die d off c).1) =
        ((visit_die d off c).1, false, false)) :=
  ⟨visit_die_cached d off c, visit_die_cached d off ((visit_die d off c).1)⟩

/-- Witness for the amended C3 at a concrete cached offset. -/
theorem visit_die_cached_skip_witness :
    visit_die unspecified_die 0 [(0, ⟨die_type.DIE_USELESS, 0, false⟩)] =
      ([(0, ⟨die_type.DIE_USELESS, 0, false⟩)], false, false) :=
  (visit_die_cached_skip unspecified_die 0
    [(0, ⟨die_type.DIE_USELESS, 0, false⟩)]).1 (by decide)

/-! ### Comparator lemmas shared by the structural equality theorems -/

theorem enum_go_empty_drains (children : List (String × Nat)) (m : MapConsts)
    (h : (EnumCmp.equal_go m children).isEmpty = true) :
    ∃ k, drains_exactly m (children.take k) = true := by
  induction children generalizing m with
  | nil =>
    exact ⟨0, by simpa [drains_exactly, drains_exactly_go] using h⟩
  | cons c rest ih =>
    rcases c with ⟨n, v⟩
    by_cases hr : (consts_find m n v).1 = true
    · have hgo : EnumCmp.equal_go m ((n, v) :: rest) =
        EnumCmp.equal_go (consts_find m n v).2 rest := by
        simp [EnumCmp.equal_go, hr]
      obtain ⟨k, hk⟩ := ih (consts_find m n v).2 (by rw [hgo] at h; exact h)
      refine ⟨k + 1, ?_⟩
      simpa [drains_exactly, drains_exactly_go, hr] using hk
    · have hgo : EnumCmp.equal_go m ((n, v) :: rest) = m := by
        simp [EnumCmp.equal_go, hr]
      rw [hgo] at h
      exact ⟨0, by simpa [drains_exactly, drains_exactly_go] using h⟩

theorem drains_take_enum_go (children : List (String × Nat)) (k : Nat) (m : MapConsts)
    (h : drains_exactly m (children.take k) = true) :
    (EnumCmp.equal_go m children).isEmpty = true := by
  induction children generalizing k m with
  | nil =>
    simpa [drains_exactly, drains_exactly_go, EnumCmp.equal_go] using h
  | cons c rest ih =>
    rcases c with ⟨n, v⟩
    cases k with
    | zero =>
      have hm : m = [] := by
        cases m with
        | nil => rfl
        | cons p ps => simp [drains_exactly, drains_exactly_go] at h
      subst hm
      simp [EnumCmp.equal_go, consts_find]
    | succ k =>
      by_cases hr : (consts_find m n v).1 = true
      · have h2 : drains_exactly (consts_find m n v).2 (rest.take k) = true := by
          simpa [drains_exactly, drains_exactly_go, hr] using h
        have h3 := ih k (consts_find m n v).2 h2
        simpa [EnumCmp.equal_go, hr] using h3
      · exfalso
        simp [drains_exactly, drains_exactly_go, hr] at h

theorem mem_of_mem_try_erase {m : MapMembers} {n : String} {o : Nat}
    {e : String × Nat} (h : e ∈ try_erase m n o) : e ∈ m := by
  induction m with
  | nil => simp [try_erase] at h
  | cons p rest ih =>
    rcases p with ⟨k, v⟩
    by_cases hk : k = n
    · subst hk
      by_cases hv : v = o
      · subst hv
        simp only [try_erase, if_pos rfl] at h
        exact List.mem_cons_of_mem _ h
      · simp only [try_erase, if_pos rfl, if_neg hv] at h
        exact h
    · simp only [try_erase, if_neg hk] at h
      rcases List.mem_cons.mp h with h | h
      · exact h ▸ List.mem_cons_self ..
      · exact List.mem_cons_of_mem _ (ih h)

theorem eq_of_erased {m : MapMembers} {n : String} {o : Nat} {e : String × Nat}
    (hm : e ∈ m) (hne : e ∉ try_erase m n o) : e = (n, o) := by
  induction m with
  | nil => cases hm
  | cons p rest ih =>
    rcases p with ⟨k, v⟩
    by_cases hk : k = n
    · subst hk
      by_cases hv : v = o
      · subst hv
        simp only [try_erase, if_pos rfl] at hne
        rcases List.mem_cons.mp hm with h | h
        · exact h
        · exact absurd h hne
      · simp only [try_erase, if_pos rfl, if_neg hv] at hne
        exact absurd hm hne
    · simp only [try_erase, if_neg hk] at hne
      rcases List.mem_cons.mp hm with h | h
      · exfalso
        exact hne (h ▸ List.mem_cons_self ..)
      · exact ih h (fun hc => hne (List.mem_cons_of_mem _ hc))

theorem keysNodup_try_erase {m : MapMembers} {n : String} {o : Nat}
    (h : keysNodup m) : keysNodup (try_erase m n o) := by
  induction m with
  | nil => simpa [try_erase] using h
  | cons p rest ih =>
    rcases p with ⟨k, v⟩
    rw [keysNodup, List.map_cons, List.nodup_cons] at h
    by_cases hk : k = n
    · subst hk
      by_cases hv : v = o
      · subst hv
        simp only [try_erase, if_pos rfl]
        exact h.2
      · simp [try_erase, hv, keysNodup] at h ⊢
        exact h
    · simp only [try_erase, if_neg hk]
      rw [keysNodup, List.map_cons, List.nodup_cons]
      refine ⟨?_, ih h.2⟩
      intro hmem
      rcases List.mem_map.mp hmem with ⟨e2, he2, hfst⟩
      exact h.1 (List.mem_map.mpr ⟨e2, mem_of_mem_try_erase he2, hfst⟩)

theorem not_mem_try_erase_self {m : MapMembers} {n : String} {o : Nat}
    (hnd : keysNodup m) (hm : (n, o) ∈ m) : (n, o) ∉ try_erase m n o := by
  induction m with
  | nil => cases hm
  | cons p rest ih =>
    rcases p with ⟨k, v⟩
    rw [keysNodup, List.map_cons, List.nodup_cons] at hnd
    by_cases hk : k = n
    · subst hk
      by_cases hv : v = o
      · subst hv
        simp only [try_erase, if_pos rfl]
        intro hc
        exact hnd.1 (List.mem_map.mpr ⟨(k, v), hc, rfl⟩)
      · simp only [try_erase, if_pos rfl, if_neg hv]
        intro hc
        rcases List.mem_cons.mp hc with h | h
        · exact hv (Prod.ext_iff.mp h).2.symm
        · exact hnd.1 (List.mem_map.mpr ⟨(k, o), h, rfl⟩)
    · simp only [try_erase, if_neg hk]
      intro hc
      rcases List.mem_cons.mp hc with h | h
      · exact hk (Prod.ext_iff.mp h).1.symm
      · rcases List.mem_cons.mp hm with h2 | h2
        · exact hk (Prod.ext_iff.mp h2).1.symm
        · exact ih hnd.2 h2 h

theorem struc_scan_empty_mem (u : Bool) (cs : List (String × Nat))
    (m : MapMembers) (hnd : keysNodup m)
    (h : (struc_scan u m cs).isEmpty = true) :
    ∀ e ∈ m, ∃ c ∈ cs, c.1 = e.1 ∧ struc_adj u c = e.2 := by
  induction cs generalizing m with
  | nil =>
    intro e he
    exfalso
    simp only [struc_scan] at h
    rw [List.isEmpty_iff] at h
    rw [h] at he
    cases he
  | cons c rest ih =>
    intro e he
    simp only [struc_scan] at h
    by_cases hmem : e ∈ try_erase m c.1 (struc_adj u c)
    · obtain ⟨c2, hc2, hp⟩ := ih (try_erase m c.1 (struc_adj u c))
        (keysNodup_try_erase hnd) h e hmem
      exact ⟨c2, List.mem_cons_of_mem _ hc2, hp⟩
    · have he2 := eq_of_erased he hmem
      exact ⟨c, List.mem_cons_self .., by simp [he2]⟩

theorem struc_scan_empty_of_mem (u : Bool) (cs : List (String × Nat))
    (m : MapMembers) (hnd : keysNodup m)
    (h : ∀ e ∈ m, ∃ c ∈ cs, c.1 = e.1 ∧ struc_adj u c = e.2) :
    (struc_scan u m cs).isEmpty = true := by
  induction cs generalizing m with
  | nil =>
    cases m with
    | nil => rfl
    | cons e rest =>
      obtain ⟨c, hc, _⟩ := h e (List.mem_cons_self ..)
      cases hc
  | cons c rest ih =>
    simp only [struc_scan]
    refine ih (try_erase m c.1 (struc_adj u c)) (keysNodup_try_erase hnd) ?_
    intro e he
    have hem : e ∈ m := mem_of_mem_try_erase he
    obtain ⟨c2, hc2, hp⟩ := h e hem
    rcases List.mem_cons.mp hc2 with hcc | hcc
    · exfalso
      have he2 : e = (c.1, struc_adj u c) := by
        rw [hcc] at hp
        exact Prod.ext_iff.mpr ⟨hp.1.symm, hp.2.symm⟩
      rw [he2] at hem he
      exact not_mem_try_erase_self hnd hem he
    · exact ⟨c2, hcc, hp⟩

/-- Counterexample for C5: the enum comparator accepts a DIE holding an
extra enumerator absent from the working set, because the scan stops at
the first non-matching child and then only tests emptiness; the exact
drain predicate of the claim rejects the same input. -/
theorem enum_equal_extra_member :
    EnumCmp.equal true [("a", 1)] [("a", 1), ("b", 2)] = true ∧
    drains_exactly [("a", 1)] [("a", 1), ("b", 2)] = false :=
  ⟨by decide, by decide⟩

/-- C5 amended: the enum comparator reports equality iff some initial segment of
the DIE enumerator sequence exactly drains the working set (children
past the first non-matching one are never examined); the struct
comparator reports equality iff the existing entity has at least one
member, union-ness matches, and every working set member has a matching
DIE child, DIE children without a counterpart being ignored. -/
theorem cmp_equal_characterization :
    (∀ (found : Bool) (m : MapConsts) (children : List (String × Nat)),
      EnumCmp.equal found m children = true ↔
        found = true ∧ ∃ k, drains_exactly m (children.take k) = true) ∧
    (∀ (found u ud : Bool) (m : MapMembers) (children : List (String × Nat)),
      keysNodup m →
      (StrucCmp.equal found u m ud children = true ↔
        m.isEmpty = false ∧ u = ud ∧ found = true ∧
          ∀ e ∈ m, ∃ c ∈ children, c.1 = e.1 ∧ struc_adj u c = e.2)) := by
  constructor
  · intro found m children
    cases found with
    | false => simp [EnumCmp.equal]
    | true =>
      simp only [EnumCmp.equal, if_true, true_and]
      constructor
      · intro h
        exact enum_go_empty_drains children m h
      · rintro ⟨k, hk⟩
        exact drains_take_enum_go children k m hk
  · intro found u ud m children hnd
    unfold StrucCmp.equal
    split_ifs with hcond
    · obtain ⟨hc1, hc2, hc3⟩ := hcond
      constructor
      · intro h
        exact ⟨Bool.eq_false_iff.mpr hc1, hc2, hc3,
               struc_scan_empty_mem u children m hnd h⟩
      · rintro ⟨-, -, -, h⟩
        exact struc_scan_empty_of_mem u children m hnd h
    · constructor
      · intro h
        exact absurd h (by simp)
      · rintro ⟨hh1, hh2, hh3, -⟩
        exact absurd ⟨by simp [hh1], hh2, hh3⟩ hcond

/-- Witness for the amended C5 at concrete comparator runs. -/
theorem cmp_equal_characterization_witness :
    EnumCmp.equal true [("a", 1)] [("a", 1)] = true ∧
    StrucCmp.equal true false [("x", 0)] false [("x", 0), ("y", 4)] = true := by
  have h := cmp_equal_characterization
  constructor
  · exact (h.1 true [("a", 1)] [("a", 1)]).mpr ⟨rfl, 1, by decide⟩
  · exact (h.2 true false false [("x", 0)] [("x", 0), ("y", 4)]
        (by unfold keysNodup; decide)).mpr ⟨by decide, rfl, rfl, by decide⟩

/-! ### Lemmas for the duplicate-name retry loops -/

theorem len_le_maxNameLen {taken : List String} {s : String} (h : s ∈ taken) :
    s.length ≤ maxNameLen taken := by
  induction taken with
  | nil => cases h
  | cons x xs ih =>
    rcases List.mem_cons.mp h with rfl | h
    · simp [maxNameLen]
    · exact le_trans (ih h) (le_max_right _ _)

theorem length_append_underscore (s : String) : (s ++ "_").length = s.length + 1 := by
  rw [String.length_append]
  rfl

theorem add_dup_go_some (taken : List String) (equalAt : String → Bool) :
    ∀ (fuel : Nat) (cur : String), cur ∈ taken →
      maxNameLen taken < cur.length + fuel →
      (add_dup_go taken equalAt cur fuel).isSome = true := by
  intro fuel
  induction fuel with
  | zero =>
    intro cur hc hlen
    exact absurd (lt_of_lt_of_le (by simpa using hlen) (len_le_maxNameLen hc))
      (lt_irrefl _)
  | succ fuel ih =>
    intro cur hc hlen
    unfold add_dup_go
    by_cases he : equalAt (cur ++ "_") = true
    · simp [he]
    · by_cases ht : (cur ++ "_") ∈ taken
      · simp only [he, ht, if_true, if_false, Bool.false_eq_true]
        have hlen2 : maxNameLen taken < (cur ++ "_").length + fuel := by
          rw [length_append_underscore]
          omega
        simpa [he, ht] using ih (cur ++ "_") ht hlen2
      · simp [he, ht]

theorem sdt_go_some (taken : List String) (equalAt : String → Bool) :
    ∀ (fuel : Nat) (cur : String),
      maxNameLen taken < cur.length + fuel →
      (sdt_go taken equalAt cur (fuel + 1)).isSome = true := by
  intro fuel
  induction fuel with
  | zero =>
    intro cur hlen
    have hnot : cur ∉ taken := fun hc =>
      absurd (lt_of_lt_of_le (by simpa using hlen) (len_le_maxNameLen hc))
        (lt_irrefl _)
    unfold sdt_go
    simp [hnot]
  | succ fuel ih =>
    intro cur hlen
    unfold sdt_go
    by_cases hc : cur ∈ taken
    · by_cases he : equalAt (cur ++ "_") = true
      · simp [hc, he]
      · have hlen2 : maxNameLen taken < (cur ++ "_").length + fuel := by
          rw [length_append_underscore]
          omega
        simpa [hc, he] using ih (cur ++ "_") hlen2
    · simp [hc]

/-- C9: the duplicate-insert retry loops of add_dup_enum, add_dup_struc
and set_simple_die_type terminate: each retry strictly grows the
candidate name, so a name longer than every taken name is reached within
a fuel bound derived from the database contents, and the loop returns. -/
theorem dup_insert_terminates (taken : List String) (equalAt : String → Bool)
    (name : String) :
    (add_dup_enum taken equalAt name (maxNameLen taken + 1)).isSome = true ∧
    (add_dup_struc taken equalAt name (maxNameLen taken + 1)).isSome = true ∧
    (set_simple_die_type taken equalAt name (maxNameLen taken + 2)).isSome = true := by
  have hgo : name ∈ taken →
      (add_dup_go taken equalAt name (maxNameLen taken + 1)).isSome = true := by
    intro h
    exact add_dup_go_some taken equalAt (maxNameLen taken + 1) name h (by omega)
  refine ⟨?_, ?_, ?_⟩
  · unfold add_dup_enum
    by_cases h : name ∈ taken
    · simpa [h] using hgo h
    · simp [h]
  · unfold add_dup_struc
    by_cases h : name ∈ taken
    · simpa [h] using hgo h
    · simp [h]
  · unfold set_simple_die_type
    by_cases h : equalAt name = true
    · simp [h]
    · have := sdt_go_some taken equalAt (maxNameLen taken + 1) name (by omega)
      simpa [h] using this

/-- C8: process_array preserves the upper bound exactly when building
the array name: a positive bound N yields T bracket N bracket, and a
missing subrange child, missing bound attribute or unreadable bound all
yield empty brackets. -/
theorem array_naming (t : String) (n : Int) (hn : 0 < n) :
    process_array_name t (some (some n)) = t ++ "[" ++ toString n ++ "]" ∧
    process_array_name t none = t ++ "[]" ∧
    process_array_name t (some none) = t ++ "[]" := by
  refine ⟨?_, ?_, ?_⟩
  · simp [process_array_name, array_size, hn]
  · simp [process_array_name, array_size, String.append_assoc]
  · simp [process_array_name, array_size, String.append_assoc]

/-- Witness for C8: upper bound 9 on an int element type registers the
array under int bracket 9 bracket, not a recomputed count of 10. -/
theorem array_naming_witness :
    (0 : Int) < 9 ∧ process_array_name "int" (some (some 9)) = "int[9]" :=
  ⟨by decide, (array_naming "int" 9 (by decide)).1.trans (by decide)⟩

/-! ### Frame variable lemmas and theorems -/

theorem regNameOf_breg5 : regNameOf DW_OP_breg5 = none := by decide

theorem regNameOf_fbreg : regNameOf DW_OP_fbreg = none := by decide

theorem register_stkvar_stkOffset (n : String) (off : Int) (t : TypeStatus) :
    (register_stkvar n off t).1.stkOffset = some off := by
  cases t <;> rfl

theorem fbreg_ne_breg5 : DW_OP_fbreg ≠ DW_OP_breg5 := by decide

theorem visit_breg5 (name : String) (members : List String) (lopc hipc : Nat)
    (fll : Bool) (num : Int) (areas : List OffsetArea) (cu : Nat)
    (tstat : TypeStatus) (hmem : name ∉ members) :
    (visit_frame_var (some name) ⟨lopc, hipc, fll, [⟨DW_OP_breg5, num⟩]⟩
      (some members) cu areas tstat).1.stkOffset = some num := by
  simp only [visit_frame_var, regNameOf_breg5, frame_offset_of]
  simp [hmem, register_stkvar_stkOffset]

theorem visit_fbreg_block (name : String) (members : List String)
    (lopc hipc : Nat) (num : Int) (a : OffsetArea) (rest : List OffsetArea)
    (cu : Nat) (tstat : TypeStatus) (hmem : name ∉ members) :
    (visit_frame_var (some name) ⟨lopc, hipc, false, [⟨DW_OP_fbreg, num⟩]⟩
      (some members) cu (a :: rest) tstat).1.stkOffset = some (a.offset + num) := by
  simp only [visit_frame_var, regNameOf_fbreg, frame_offset_of]
  simp [hmem, fbreg_ne_breg5, register_stkvar_stkOffset]

theorem visit_fbreg_loclist_found (name : String) (members : List String)
    (lopc hipc : Nat) (num : Int) (areas : List OffsetArea) (cu : Nat)
    (tstat : TypeStatus) (hmem : name ∉ members) (a : OffsetArea)
    (hfind : areas.find? (fun x => x.contains_range lopc hipc) = some a) :
    (visit_frame_var (some name) ⟨lopc, hipc, true, [⟨DW_OP_fbreg, num⟩]⟩
      (some members) cu areas tstat).1.stkOffset = some (a.offset + num) := by
  have hne : areas ≠ [] := List.ne_nil_of_mem (List.mem_of_find?_eq_some hfind)
  simp only [visit_frame_var, regNameOf_fbreg, frame_offset_of]
  simp [hmem, fbreg_ne_breg5, hfind, register_stkvar_stkOffset,
    List.isEmpty_iff, hne]

theorem visit_fbreg_loclist_none (name : String) (members : List String)
    (lopc hipc : Nat) (num : Int) (areas : List OffsetArea) (cu : Nat)
    (tstat : TypeStatus) (hmem : name ∉ members) (hne : areas ≠ [])
    (hfind : areas.find? (fun x => x.contains_range lopc hipc) = none) :
    (visit_frame_var (some name) ⟨lopc, hipc, true, [⟨DW_OP_fbreg, num⟩]⟩
      (some members) cu areas tstat).1 = VarOutcome.nothing := by
  simp only [visit_frame_var, regNameOf_fbreg, frame_offset_of]
  simp [hmem, fbreg_ne_breg5, hfind, List.isEmpty_iff, hne]

/-- Counterexample for C6: the frame base of the subprogram is a
location list with a single area over addresses 16 to 32, while the
variable location is a plain location block (not from a location list)
whose degenerate range no area contains; the code nevertheless registers
the variable using the first area offset, where per the claim a
location-list frame base requires a containing area and otherwise skips
the variable. -/
theorem fbreg_locblock_ignores_area_match :
    visit_frame_var (some "x")
      ⟨0, MAX_EA, false, [⟨DW_OP_fbreg, 4⟩]⟩
      (some []) 0 (mkOffsetAreas (FrameBase.loclist [⟨16, 32, -8, true⟩]))
      TypeStatus.noType = (VarOutcome.stkvar "x" (-4) false, []) ∧
    OffsetArea.contains_range ⟨16, 32, -8, true⟩ 0 MAX_EA = false :=
  ⟨by decide, by decide⟩

/-- C6 amended: the branch is decided by whether the variable location
description itself came from a location list.  A single breg5 location
yields the operand directly; a plain-block fbreg location with known
areas yields the first area offset plus the operand; a location-list
fbreg location yields the offset of the first containing area plus the
operand and the variable is skipped when no area contains the range; a
simple frame base carries the global base in its single area, so both
branches then compute global base plus operand. -/
theorem fbreg_offset_resolution (name : String) (members : List String)
    (lopc hipc : Nat) (fll : Bool) (num : Int) (areas : List OffsetArea)
    (cu : Nat) (tstat : TypeStatus) (hmem : name ∉ members) :
    ((visit_frame_var (some name) ⟨lopc, hipc, fll, [⟨DW_OP_breg5, num⟩]⟩
        (some members) cu areas tstat).1.stkOffset = some num) ∧
    (∀ a rest, areas = a :: rest → fll = false →
      (visit_frame_var (some name) ⟨lopc, hipc, fll, [⟨DW_OP_fbreg, num⟩]⟩
        (some members) cu areas tstat).1.stkOffset = some (a.offset + num)) ∧
    (fll = true →
      (∀ a, areas.find? (fun x => x.contains_range lopc hipc) = some a →
        (visit_frame_var (some name) ⟨lopc, hipc, fll, [⟨DW_OP_fbreg, num⟩]⟩
          (some members) cu areas tstat).1.stkOffset = some (a.offset + num)) ∧
      (areas ≠ [] → areas.find? (fun x => x.contains_range lopc hipc) = none →
        (visit_frame_var (some name) ⟨lopc, hipc, fll, [⟨DW_OP_fbreg, num⟩]⟩
          (some members) cu areas tstat).1 = VarOutcome.nothing)) ∧
    (∀ b, areas = mkOffsetAreas (FrameBase.simple b) → hipc ≤ MAX_EA →
      (visit_frame_var (some name) ⟨lopc, hipc, fll, [⟨DW_OP_fbreg, num⟩]⟩
        (some members) cu areas tstat).1.stkOffset = some (b + num)) := by
  refine ⟨?_, ?_, ?_, ?_⟩
  · exact visit_breg5 name members lopc hipc fll num areas cu tstat hmem
  · rintro a rest rfl rfl
    exact visit_fbreg_block name members lopc hipc num a rest cu tstat hmem
  · rintro rfl
    exact ⟨fun a hfind =>
        visit_fbreg_loclist_found name members lopc hipc num areas cu tstat
          hmem a hfind,
      fun hne hfind =>
        visit_fbreg_loclist_none name members lopc hipc num areas cu tstat
          hmem hne hfind⟩
  · rintro b rfl hhi
    cases fll with
    | false =>
      exact visit_fbreg_block name members lopc hipc num ⟨0, MAX_EA, b, true⟩ []
        cu tstat hmem
    | true =>
      have hfind : (mkOffsetAreas (FrameBase.simple b)).find?
          (fun x => x.contains_range lopc hipc) = some ⟨0, MAX_EA, b, true⟩ := by
        simp [mkOffsetAreas, List.find?, OffsetArea.contains_range, hhi]
      exact visit_fbreg_loclist_found name members lopc hipc num
        (mkOffsetAreas (FrameBase.simple b)) cu tstat hmem ⟨0, MAX_EA, b, true⟩
        hfind

/-- Witness for the amended C6: area offset -8 with operand 4 yields
stack offset -4 for a variable location inside the area range, matching
the worked example of the spec. -/
theorem fbreg_offset_resolution_witness :
    (visit_frame_var (some "v") ⟨16, 24, true, [⟨DW_OP_fbreg, 4⟩]⟩ (some []) 0
      [⟨16, 32, -8, true⟩] TypeStatus.noType).1.stkOffset = some (-4) := by
  have h := fbreg_offset_resolution "v" [] 16 24 true 4 [⟨16, 32, -8, true⟩] 0
    TypeStatus.noType (by simp)
  have h2 := (h.2.2.1 rfl).1 ⟨16, 32, -8, true⟩ (by decide)
  exact h2.trans (by decide)

/-- Counterexample for C7: a location description with two entries is
skipped with no registration and, contrary to the claim, no log message
is emitted. -/
theorem multi_location_skipped_silently :
    visit_frame_var (some "x") ⟨0, 0, true, [⟨DW_OP_addr, 5⟩, ⟨DW_OP_addr, 6⟩]⟩
      (some []) 0 [] TypeStatus.noType = (VarOutcome.nothing, []) := by
  decide

/-- C7 amended: register atoms map through the fixed nine-entry table;
the register variable is registered over the location range only when
the description came from a genuine location list, and a plain register
block registers nothing; a description with several location entries, or
a single entry with an unsupported atom, is skipped silently with no
registration at all and no log. -/
theorem register_atom_resolution (name : String) :
    (regNameOf DW_OP_reg0 = some "eax" ∧ regNameOf DW_OP_reg1 = some "ecx" ∧
     regNameOf DW_OP_reg2 = some "edx" ∧ regNameOf DW_OP_reg3 = some "ebx" ∧
     regNameOf DW_OP_reg4 = some "esp" ∧ regNameOf DW_OP_reg5 = some "ebp" ∧
     regNameOf DW_OP_reg6 = some "esi" ∧ regNameOf DW_OP_reg7 = some "edi" ∧
     regNameOf DW_OP_reg8 = some "eip") ∧
    (∀ (atom : Nat) (num : Int) (reg : String) (lopc hipc cu : Nat)
       (frame : Option (List String)) (areas : List OffsetArea) (tstat : TypeStatus),
      regNameOf atom = some reg →
      visit_frame_var (some name) ⟨lopc, hipc, true, [⟨atom, num⟩]⟩ frame cu areas
          tstat = (VarOutcome.regvar (lopc + cu) (hipc + cu) reg name, []) ∧
      visit_frame_var (some name) ⟨lopc, hipc, false, [⟨atom, num⟩]⟩ frame cu areas
          tstat = (VarOutcome.nothing, [])) ∧
    (∀ (locdesc : Locdesc) (frame : Option (List String)) (cu : Nat)
       (areas : List OffsetArea) (tstat : TypeStatus), locdesc.ops.length ≠ 1 →
      visit_frame_var (some name) locdesc frame cu areas tstat =
        (VarOutcome.nothing, [])) ∧
    (∀ (atom : Nat) (num : Int) (lopc hipc : Nat) (fll : Bool) (cu : Nat)
       (frame : Option (List String)) (areas : List OffsetArea) (tstat : TypeStatus),
      regNameOf atom = none → atom ≠ DW_OP_breg5 → atom ≠ DW_OP_fbreg →
      visit_frame_var (some name) ⟨lopc, hipc, fll, [⟨atom, num⟩]⟩ frame cu areas
        tstat = (VarOutcome.nothing, [])) := by
  refine ⟨by decide, ?_, ?_, ?_⟩
  · intro atom num reg lopc hipc cu frame areas tstat hreg
    exact ⟨by simp [visit_frame_var, hreg], by simp [visit_frame_var, hreg]⟩
  · intro locdesc frame cu areas tstat hlen
    rcases locdesc with ⟨lo, hi, f, ops⟩
    cases ops with
    | nil => simp [visit_frame_var]
    | cons x rest =>
      cases rest with
      | nil => exact absurd rfl hlen
      | cons y r => simp [visit_frame_var]
  · intro atom num lopc hipc fll cu frame areas tstat hno hb hf
    cases frame with
    | none => simp [visit_frame_var, hno]
    | some members =>
      by_cases hmem : name ∈ members
      · simp [visit_frame_var, hno, hmem]
      · simp [visit_frame_var, hno, hmem, frame_offset_of, hb, hf]

/-- Witness for the amended C7: reg1 over a genuine location list range
1 to 2 with compilation unit base 10 registers ecx over 11 to 12. -/
theorem register_atom_resolution_witness :
    visit_frame_var (some "p") ⟨1, 2, true, [⟨DW_OP_reg1, 0⟩]⟩ (some []) 10 []
      TypeStatus.noType = (VarOutcome.regvar 11 12 "ecx" "p", []) :=
  ((register_atom_resolution "p").2.1 DW_OP_reg1 0 "ecx" 1 2 10 (some []) []
    TypeStatus.noType (by decide)).1

/-- Counterexample for C10: the frame already holds a member named x,
yet a single-location register variable from a location list is still
registered, because the register path never consults the frame members. -/
theorem regvar_added_despite_collision :
    visit_frame_var (some "x") ⟨16, 32, true, [⟨DW_OP_reg0, 0⟩]⟩ (some ["x"]) 0 []
      TypeStatus.noType = (VarOutcome.regvar 16 32 "eax" "x", []) := by
  decide

/-- C10 amended: a nameless DIE registers nothing at all; when the frame
already holds a member with the variable name, the stack path registers
nothing (no stack member, no type application), though the register path
may still add a register variable. -/
theorem frame_var_skip_conditions :
    (∀ (locdesc : Locdesc) (frame : Option (List String)) (cu : Nat)
       (areas : List OffsetArea) (tstat : TypeStatus),
      visit_frame_var none locdesc frame cu areas tstat = (VarOutcome.nothing, [])) ∧
    (∀ (name : String) (members : List String) (locdesc : Locdesc) (cu : Nat)
       (areas : List OffsetArea) (tstat : TypeStatus), name ∈ members →
      (visit_frame_var (some name) locdesc (some members) cu areas
        tstat).1.isStk = false) := by
  constructor
  · intro locdesc frame cu areas tstat
    rfl
  · intro name members locdesc cu areas tstat hmem
    rcases locdesc with ⟨lo, hi, f, ops⟩
    cases ops with
    | nil => simp [visit_frame_var, VarOutcome.isStk]
    | cons x rest =>
      cases rest with
      | nil =>
        cases hreg : regNameOf x.atom with
        | some r =>
          cases f <;> simp [visit_frame_var, hreg, VarOutcome.isStk]
        | none =>
          simp [visit_frame_var, hreg, hmem, VarOutcome.isStk]
      | cons y r => simp [visit_frame_var, VarOutcome.isStk]

/-- Witness for the amended C10: nameless skip and collision skip at
concrete inputs. -/
theorem frame_var_skip_conditions_witness :
    visit_frame_var none ⟨0, 0, false, []⟩ none 0 [] TypeStatus.noType =
      (VarOutcome.nothing, []) ∧
    (visit_frame_var (some "x") ⟨0, 0, false, [⟨DW_OP_breg5, 7⟩]⟩ (some ["x"]) 0 []
      TypeStatus.noType).1.isStk = false :=
  ⟨frame_var_skip_conditions.1 ⟨0, 0, false, []⟩ none 0 [] TypeStatus.noType,
   frame_var_skip_conditions.2 "x" ["x"] ⟨0, 0, false, [⟨DW_OP_breg5, 7⟩]⟩ 0 []
     TypeStatus.noType (by decide)⟩
